import Mathlib

/-!
Shallow embedding of `grep_search.py`
(`src/tools/src/aden_tools/tools/file_system_toolkits/grep_search/grep_search.py`).

The tool searches a regex pattern over a sandboxed file tree and returns a
result dictionary.  External collaborators are modelled as data carried by an
environment `Env`:

* `re.compile` is modelled by `Env.reCompile : String → Except String (String → Bool)`:
  either the compile-error message (`re.error.msg`) or the compiled matcher,
  itself abstracted as a line predicate (the semantics of `regex.search(line)`).
* `get_secure_path` is modelled by `Env.resolve : Except ResolveError String`:
  the outcome of the one resolver call the request makes (the resolved
  absolute path, or the exception it raises).
* the filesystem below the resolved path is modelled by `Env.target` /
  `FSTree`; a file's observable behaviour when opened as UTF-8 text is its
  yielded lines plus whether iteration ends in a raised
  `UnicodeDecodeError`/`PermissionError`/`OSError` (`FileContent`).
* `os.path.relpath` is modelled by `Env.relpath : String → String → Option String`
  (`none` models the `ValueError` branch for paths on different drives).

Paths are joined POSIX-style (`os.path.join root name = root ++ "/" ++ name`).
-/

/-- `MAX_MATCHES = 1000` from `grep_search.py`. -/
def MAX_MATCHES : Nat := 1000

/-- `IGNORED_DIRS` from `grep_search.py` (a `set` of directory names). -/
def IGNORED_DIRS : List String :=
  ["node_modules", ".git", "__pycache__", ".venv", "venv",
   "dist", "build", ".pytest_cache", ".mypy_cache"]

/-- `BINARY_EXTENSIONS` from `grep_search.py`. -/
def BINARY_EXTENSIONS : List String :=
  [".pyc", ".pyo", ".pyd", ".class", ".o", ".so", ".dll", ".exe", ".dylib",
   ".db", ".sqlite", ".sqlite3",
   ".zip", ".tar", ".gz", ".7z", ".rar", ".whl",
   ".png", ".jpg", ".jpeg", ".gif", ".webp", ".ico", ".svg",
   ".mp3", ".mp4", ".mov", ".avi",
   ".pdf", ".docx", ".xlsx",
   ".ttf", ".otf", ".woff", ".woff2"]

/-- Index of the last occurrence of character `c` in `cs`, if any. -/
def lastIdxOf (c : Char) (cs : List Char) : Option Nat :=
  ((List.range cs.length).filter (fun i => cs.getD i ' ' == c)).getLast?

/-- The extension part of `os.path.splitext(p)` (POSIX separator): the suffix
from the last dot of the basename, unless every character of the basename
before that dot is itself a dot (so `".bashrc"` has extension `""`). -/
def splitextExt (p : String) : String :=
  let cs := p.toList
  let base :=
    match lastIdxOf '/' cs with
    | none => cs
    | some i => cs.drop (i + 1)
  match lastIdxOf '.' base with
  | none => ""
  | some i =>
      if (base.take i).any (fun ch => ch != '.') then String.mk (base.drop i) else ""

/-- `os.path.join` for a relative component, POSIX style. -/
def pjoin (a b : String) : String := a ++ "/" ++ b

/-- ASCII lower-casing of one character (the reach of `str.lower()` on the
extension strings involved here). -/
def lowerChar (c : Char) : Char :=
  if 'A' ≤ c ∧ c ≤ 'Z' then Char.ofNat (c.toNat + 32) else c

/-- `ext.lower()` on an extension string. -/
def lowerString (s : String) : String := String.mk (s.toList.map lowerChar)

/-- Python whitespace as stripped by `str.strip()` (ASCII range). -/
def isSpaceChar (c : Char) : Bool :=
  (c == ' ') || (c == '\t') || (c == '\n') || (c == '\r') ||
  (c == '\x0B') || (c == '\x0C')

/-- `line.strip()`: remove leading and trailing whitespace. -/
def stripString (s : String) : String :=
  String.mk (((s.toList.dropWhile isSpaceChar).reverse.dropWhile isSpaceChar).reverse)

/-- One entry of the `matches` list: `{"file": ..., "line_number": ..., "line_content": ...}`. -/
structure MatchRecord where
  file : String
  line_number : Nat
  line_content : String
deriving DecidableEq, Repr

/-- Observable behaviour of `open(full_path, "r", encoding="utf-8")` followed by
line iteration. -/
inductive FileContent where
  /-- The file opens and decodes; iteration yields exactly `lines`. -/
  | text (lines : List String)
  /-- Iteration yields `lines` and then raises `UnicodeDecodeError`,
  `PermissionError` or `OSError` (`errorAfter []`: the failure happens at
  `open` or on the first read). -/
  | errorAfter (lines : List String)
deriving DecidableEq, Repr

/-- A directory subtree: what `os.walk` / `os.listdir` enumerate below a path. -/
inductive FSTree where
  | file (name : String) (content : FileContent)
  | dir (name : String) (children : List FSTree)
deriving Repr

/-- What exists at the resolved path `secure_path`. -/
inductive Target where
  | file (content : FileContent)
  | dir (children : List FSTree)
  | missing
deriving Repr

/-- Exceptions `get_secure_path` may raise, as discriminated by the
`except` clauses of `grep_search`. -/
inductive ResolveError where
  | notFound
  | permissionDenied
  | other (msg : String)
deriving DecidableEq, Repr

/-- The environment of one request: the behaviour of the external
collaborators and of the filesystem during this request. -/
structure Env where
  reCompile : String → Except String (String → Bool)
  resolve : Except ResolveError String
  sessionRoot : String
  relpath : String → String → Option String
  target : Target

/-- The data `process_file` closes over. -/
structure ScanCtx where
  regex : String → Bool
  relpath : String → String → Option String
  sessionRoot : String

/-- Replace the filesystem seen below the resolved path, leaving the other
collaborators unchanged (used to state that some part of the tree is
irrelevant to the result). -/
def withTarget (env : Env) (t : Target) : Env :=
  { env with target := t }

/-- Return value of `process_file`: `"STOP"` or `None`. -/
inductive ScanSignal where
  | stop
  | cont
deriving DecidableEq, Repr

/-- The `for i, line in enumerate(f, 1)` loop of `process_file`: before each
line the running length is checked against `MAX_MATCHES` (returning `"STOP"`),
then the line is tested and on a hit a record with the display path, the
1-based index and the stripped line is appended. -/
def scanLines (ctx : ScanCtx) (display : String) :
    List String → Nat → List MatchRecord → List MatchRecord × ScanSignal
  | [], _, ms => (ms, ScanSignal.cont)
  | line :: rest, i, ms =>
      if MAX_MATCHES ≤ ms.length then (ms, ScanSignal.stop)
      else
        let ms2 := if ctx.regex line then ms ++ [⟨display, i, stripString line⟩] else ms
        scanLines ctx display rest (i + 1) ms2

/-- `process_file(full_path)`: skip on binary extension (lower-cased), compute
the display path (`os.path.relpath(full_path, session_root)` with the absolute
path as `ValueError` fallback), then scan the lines; a
`UnicodeDecodeError`/`PermissionError`/`OSError` from the read is caught and
ignored (`pass`), so it can only cut the line iteration short. -/
def process_file (ctx : ScanCtx) (full_path : String) (content : FileContent)
    (ms : List MatchRecord) : List MatchRecord × ScanSignal :=
  if lowerString (splitextExt full_path) ∈ BINARY_EXTENSIONS then (ms, ScanSignal.cont)
  else
    let display := (ctx.relpath full_path ctx.sessionRoot).getD full_path
    match content with
    | FileContent.text lines => scanLines ctx display lines 1 ms
    | FileContent.errorAfter lines =>
        match scanLines ctx display lines 1 ms with
        | (ms2, ScanSignal.stop) => (ms2, ScanSignal.stop)
        | (ms2, ScanSignal.cont) => (ms2, ScanSignal.cont)

/-- The `for filename in filenames` loop of the recursive branch: per file,
check the cap (`break`), then `process_file`, breaking on `"STOP"`.
Directory entries are not in `filenames`. -/
def walkFilesLoop (ctx : ScanCtx) :
    String → List FSTree → List MatchRecord → List MatchRecord
  | _, [], ms => ms
  | root, FSTree.dir _ _ :: rest, ms => walkFilesLoop ctx root rest ms
  | root, FSTree.file name c :: rest, ms =>
      if MAX_MATCHES ≤ ms.length then ms
      else
        match process_file ctx (pjoin root name) c ms with
        | (ms2, ScanSignal.stop) => ms2
        | (ms2, ScanSignal.cont) => walkFilesLoop ctx root rest ms2

/-- Descent part of `for root, dirs, filenames in os.walk(secure_path)` with
the in-place pruning `dirs[:] = [d for d in dirs if d not in IGNORED_DIRS]`:
each subdirectory surviving the prune is visited (cap check at its tuple,
then its file loop, then its own descent); the returned Bool is the pending
`break` of the outer loop, which aborts the remaining walk. -/
def walkList (ctx : ScanCtx) :
    String → List FSTree → List MatchRecord → List MatchRecord × Bool
  | _, [], ms => (ms, false)
  | root, FSTree.file _ _ :: rest, ms => walkList ctx root rest ms
  | root, FSTree.dir n cs :: rest, ms =>
      if n ∈ IGNORED_DIRS then walkList ctx root rest ms
      else if MAX_MATCHES ≤ ms.length then (ms, true)
      else
        let r := walkList ctx (pjoin root n) cs (walkFilesLoop ctx (pjoin root n) cs ms)
        if r.2 then r else walkList ctx root rest r.1

/-- The whole recursive branch: the `os.walk` visit of `secure_path` itself
(cap check, file loop) followed by the pruned descent. -/
def walkVisit (ctx : ScanCtx) (root : String) (children : List FSTree)
    (ms : List MatchRecord) : List MatchRecord × Bool :=
  if MAX_MATCHES ≤ ms.length then (ms, true)
  else walkList ctx root children (walkFilesLoop ctx root children ms)

/-- The non-recursive branch: `for item in os.listdir(secure_path)` processes
each entry that `os.path.isfile` accepts, breaking on `"STOP"` (there is no
separate cap check in this loop). -/
def nonrecLoop (ctx : ScanCtx) :
    String → List FSTree → List MatchRecord → List MatchRecord
  | _, [], ms => ms
  | root, FSTree.dir _ _ :: rest, ms => nonrecLoop ctx root rest ms
  | root, FSTree.file name c :: rest, ms =>
      match process_file ctx (pjoin root name) c ms with
      | (ms2, ScanSignal.stop) => ms2
      | (ms2, ScanSignal.cont) => nonrecLoop ctx root rest ms2

/-- The returned Python dict, with one `Option` field per key that can occur. -/
structure ResultDict where
  success : Option Bool := none
  pattern : Option String := none
  path : Option String := none
  recursive : Option Bool := none
  matchList : Option (List MatchRecord) := none
  total_matches : Option Nat := none
  warning : Option String := none
  error : Option String := none
deriving DecidableEq, Repr

/-- An error envelope `{"error": msg}`. -/
def errDict (msg : String) : ResultDict := { error := some msg }

/-- The warning string for a capped result. -/
def capWarning : String := "Stopped early after reaching MAX_MATCHES=1000"

/-- The success envelope built at the end of `grep_search`, with the `warning`
key added exactly when `len(matches) >= MAX_MATCHES`. -/
def okDict (pattern path : String) (recursive : Bool) (ms : List MatchRecord) :
    ResultDict :=
  { success := some true, pattern := some pattern, path := some path,
    recursive := some recursive, matchList := some ms,
    total_matches := some ms.length,
    warning := if MAX_MATCHES ≤ ms.length then some capWarning else none }

/-- `grep_search(path, pattern, workspace_id, agent_id, session_id, recursive)`.
The sandbox identifiers only feed the resolver and the session root, both of
which are part of `env`.  Control flow of the source: compile first (its
failure returns before anything else runs); then, inside the `try`, resolve,
dispatch on `os.path.isfile` / `recursive`, and assemble the result; the
`except` clauses translate resolver/listing exceptions into error envelopes.
On a missing resolved target, `os.walk` swallows the listing error (yielding
nothing), while `os.listdir` raises `FileNotFoundError`. -/
def grep_search (env : Env) (path pattern : String) (recursive : Bool) :
    ResultDict :=
  match env.reCompile pattern with
  | Except.error msg => errDict ("Invalid regex pattern: " ++ msg)
  | Except.ok regex =>
    match env.resolve with
    | Except.error ResolveError.notFound =>
        errDict ("Directory or file not found: " ++ path)
    | Except.error ResolveError.permissionDenied =>
        errDict ("Permission denied accessing: " ++ path)
    | Except.error (ResolveError.other m) =>
        errDict ("Failed to perform grep search: " ++ m)
    | Except.ok securePath =>
      let ctx : ScanCtx := ⟨regex, env.relpath, env.sessionRoot⟩
      match env.target with
      | Target.file c =>
          okDict pattern path recursive (process_file ctx securePath c []).1
      | Target.dir children =>
          if recursive then
            okDict pattern path recursive (walkVisit ctx securePath children []).1
          else
            okDict pattern path recursive (nonrecLoop ctx securePath children [])
      | Target.missing =>
          if recursive then okDict pattern path recursive []
          else errDict ("Directory or file not found: " ++ path)

/-- A concrete `os.path.relpath` instance for witnesses: defined (as suffix
stripping) when `base ++ "/"` is a prefix of `p`. -/
def modelRelpath (p base : String) : Option String :=
  let pc := p.toList
  let bc := base.toList ++ [Char.ofNat 47]
  if bc.isPrefixOf pc then some (String.mk (pc.drop bc.length)) else none

/-- The success-envelope shape: `success=True` with the echoed request data,
the match list and the total, and no `error` key. -/
def isSuccessShape (r : ResultDict) : Prop :=
  r.success = some true ∧ r.pattern.isSome = true ∧ r.path.isSome = true ∧
  r.recursive.isSome = true ∧ r.matchList.isSome = true ∧
  r.total_matches.isSome = true ∧ r.error = none

/-- The error-envelope shape: only the `error` key is present. -/
def isErrorShape (r : ResultDict) : Prop :=
  r.error.isSome = true ∧ r.success = none ∧ r.pattern = none ∧ r.path = none ∧
  r.recursive = none ∧ r.matchList = none ∧ r.total_matches = none ∧
  r.warning = none

/-- Modelled from the spec: `get_secure_path` lives in the `..security` module,
which is not under `src/`; per spec §4.2/§7 the resolver "fails with
`NotFound`" when the "resolved target does not exist", so an environment
produced by it never pairs a successful resolution with a missing target. -/
def resolverConsistent (env : Env) : Prop :=
  env.target = Target.missing → ∃ e, env.resolve = Except.error e

/-- Whether a tree node is a file entry. -/
def isFileNode : FSTree → Bool
  | FSTree.file _ _ => true
  | FSTree.dir _ _ => false

/-- Delete every directory whose name is in `IGNORED_DIRS`, at every depth. -/
def pruneIgnored : List FSTree → List FSTree
  | [] => []
  | FSTree.file n c :: rest => FSTree.file n c :: pruneIgnored rest
  | FSTree.dir n cs :: rest =>
      if n ∈ IGNORED_DIRS then pruneIgnored rest
      else FSTree.dir n (pruneIgnored cs) :: pruneIgnored rest

/-- Delete every file entry (at every depth below `root`) whose joined full
path satisfies `dead`. -/
def removeFiles (dead : String → FileContent → Bool) :
    String → List FSTree → List FSTree
  | _, [] => []
  | root, FSTree.file n c :: rest =>
      if dead (pjoin root n) c then removeFiles dead root rest
      else FSTree.file n c :: removeFiles dead root rest
  | root, FSTree.dir n cs :: rest =>
      FSTree.dir n (removeFiles dead (pjoin root n) cs) :: removeFiles dead root rest

/-- Files skipped by the extension check of `process_file`. -/
def isBinaryName (full : String) (_ : FileContent) : Bool :=
  lowerString (splitextExt full) ∈ BINARY_EXTENSIONS

/-- Files whose `open` (or very first read) raises, so that they are skipped
by the `except` clause of `process_file` without contributing anything. -/
def isUnopenable (_ : String) (c : FileContent) : Bool :=
  match c with
  | FileContent.errorAfter [] => true
  | _ => false

/-- The lines a file yields before a possible read error. -/
def FileContent.linesOf : FileContent → List String
  | FileContent.text lines => lines
  | FileContent.errorAfter lines => lines

/-- Full path and yielded lines of each file entry of one directory listing
(the candidates of `os.listdir` + `os.path.isfile`, and of one `os.walk`
tuple's `filenames`). -/
def fileCands : String → List FSTree → List (String × List String)
  | _, [] => []
  | root, FSTree.file n c :: rest =>
      (pjoin root n, FileContent.linesOf c) :: fileCands root rest
  | root, FSTree.dir _ _ :: rest => fileCands root rest

/-- Full path and yielded lines of every file anywhere below `root`. -/
def treeFiles : String → List FSTree → List (String × List String)
  | _, [] => []
  | root, FSTree.file n c :: rest =>
      (pjoin root n, FileContent.linesOf c) :: treeFiles root rest
  | root, FSTree.dir n cs :: rest =>
      treeFiles (pjoin root n) cs ++ treeFiles root rest

/-- Every file the resolved target can offer to the scanner. -/
def targetFiles (sp : String) : Target → List (String × List String)
  | Target.file c => [(sp, FileContent.linesOf c)]
  | Target.dir children => treeFiles sp children
  | Target.missing => []

/-- Provenance of a match record: some candidate file `full` with lines
`lines` exists such that the record's display path is
`os.path.relpath(full, session_root)` (absolute fallback), its line number is
the 1-based index of an actual line of that file, and its content is that
line with surrounding whitespace stripped and matching the pattern. -/
def scannedFrom (ctx : ScanCtx) (cands : List (String × List String))
    (m : MatchRecord) : Prop :=
  ∃ (full : String) (lines : List String),
    (full, lines) ∈ cands ∧
    m.file = (ctx.relpath full ctx.sessionRoot).getD full ∧
    1 ≤ m.line_number ∧
    ∃ line, lines.get? (m.line_number - 1) = some line ∧
      m.line_content = stripString line ∧ ctx.regex line = true

/-! ## Concrete environments used by witnesses and counterexamples -/

/-- A single text file `notes.txt` with one matching and one non-matching line. -/
def envSingle : Env :=
  { reCompile := fun _ => Except.ok (fun line => line = "hit"),
    resolve := Except.ok "/ws/w/a/s/notes.txt",
    sessionRoot := "/ws/w/a/s",
    relpath := modelRelpath,
    target := Target.file (FileContent.text ["hit", "miss"]) }

/-- A single text file with exactly 1000 matching lines. -/
def envThousand : Env :=
  { reCompile := fun _ => Except.ok (fun _ => true),
    resolve := Except.ok "/ws/w/a/s/big.log",
    sessionRoot := "/ws/w/a/s",
    relpath := modelRelpath,
    target := Target.file (FileContent.text (List.replicate 1000 "hit")) }

/-- An environment whose pattern fails to compile. -/
def envBadPattern : Env :=
  { reCompile := fun _ => Except.error "missing ), unterminated subpattern",
    resolve := Except.ok "/ws/w/a/s",
    sessionRoot := "/ws/w/a/s",
    relpath := modelRelpath,
    target := Target.dir [FSTree.file "a.txt" (FileContent.text ["hit"])] }

/-- Same failing pattern, but a completely different resolver outcome and
filesystem: used to show the result cannot depend on either. -/
def envBadPattern2 : Env :=
  { reCompile := fun _ => Except.error "missing ), unterminated subpattern",
    resolve := Except.error ResolveError.permissionDenied,
    sessionRoot := "/elsewhere",
    relpath := fun _ _ => none,
    target := Target.missing }

/-- The resolved search target is itself a directory named `node_modules`
containing one matching text file. -/
def envRootIgnoredName : Env :=
  { reCompile := fun _ => Except.ok (fun line => line = "hit"),
    resolve := Except.ok "/ws/w/a/s/node_modules",
    sessionRoot := "/ws/w/a/s",
    relpath := modelRelpath,
    target := Target.dir [FSTree.file "a.txt" (FileContent.text ["hit"])] }

/-- A directory containing a matching file plus a `node_modules` subdirectory
with another matching file. -/
def envWithIgnored : Env :=
  { reCompile := fun _ => Except.ok (fun line => line = "hit"),
    resolve := Except.ok "/ws/w/a/s",
    sessionRoot := "/ws/w/a/s",
    relpath := modelRelpath,
    target := Target.dir
      [FSTree.file "a.txt" (FileContent.text ["hit"]),
       FSTree.dir "node_modules" [FSTree.file "b.txt" (FileContent.text ["hit"])]] }

/-- A directory with an immediate file and a subdirectory holding another
matching file (for the non-recursive mode claim). -/
def envWithSubdir : Env :=
  { reCompile := fun _ => Except.ok (fun line => line = "hit"),
    resolve := Except.ok "/ws/w/a/s",
    sessionRoot := "/ws/w/a/s",
    relpath := modelRelpath,
    target := Target.dir
      [FSTree.file "a.txt" (FileContent.text ["hit"]),
       FSTree.dir "sub" [FSTree.file "b.txt" (FileContent.text ["hit"])]] }

/-- A directory with an unreadable file next to a readable matching file. -/
def envWithUnreadable : Env :=
  { reCompile := fun _ => Except.ok (fun line => line = "hit"),
    resolve := Except.ok "/ws/w/a/s",
    sessionRoot := "/ws/w/a/s",
    relpath := modelRelpath,
    target := Target.dir
      [FSTree.file "locked.txt" (FileContent.errorAfter []),
       FSTree.file "good.txt" (FileContent.text ["hit"])] }

/-- A request whose resolved target does not exist: the (spec-modelled)
resolver raises `NotFound`. -/
def envMissing : Env :=
  { reCompile := fun _ => Except.ok (fun _ => true),
    resolve := Except.error ResolveError.notFound,
    sessionRoot := "/ws/w/a/s",
    relpath := modelRelpath,
    target := Target.missing }

/-- The resolved search target is the subdirectory `sub` of the session root,
holding one matching file. -/
def envSubdirTarget : Env :=
  { reCompile := fun _ => Except.ok (fun line => line = "hit"),
    resolve := Except.ok "/ws/w/a/s/sub",
    sessionRoot := "/ws/w/a/s",
    relpath := modelRelpath,
    target := Target.dir [FSTree.file "f.txt" (FileContent.text ["hit"])] }

/-- A single file with a binary extension whose bytes would decode to a
matching line. -/
def envBinarySingle : Env :=
  { reCompile := fun _ => Except.ok (fun line => line = "hit"),
    resolve := Except.ok "/ws/w/a/s/icon.png",
    sessionRoot := "/ws/w/a/s",
    relpath := modelRelpath,
    target := Target.file (FileContent.text ["hit"]) }

/-- A directory holding a matching text file and a matching `.PNG` file. -/
def envBinaryDir : Env :=
  { reCompile := fun _ => Except.ok (fun line => line = "hit"),
    resolve := Except.ok "/ws/w/a/s",
    sessionRoot := "/ws/w/a/s",
    relpath := modelRelpath,
    target := Target.dir
      [FSTree.file "config.txt" (FileContent.text ["hit"]),
       FSTree.file "image.PNG" (FileContent.text ["hit"])] }

/-! ## Cap preservation: every append in `scanLines` is guarded -/

theorem scanLines_length_le (ctx : ScanCtx) (display : String) :
    ∀ (lines : List String) (i : Nat) (ms : List MatchRecord),
      ms.length ≤ MAX_MATCHES →
      ((scanLines ctx display lines i ms).1).length ≤ MAX_MATCHES := by
  intro lines
  induction lines with
  | nil => intro i ms h; simpa [scanLines] using h
  | cons line rest ih =>
      intro i ms h
      by_cases hcap : MAX_MATCHES ≤ ms.length
      · simpa [scanLines, hcap] using h
      · have hlt : ms.length < MAX_MATCHES := Nat.lt_of_not_le hcap
        by_cases hm : ctx.regex line = true
        · simp only [scanLines, if_neg hcap, hm, if_pos]
          exact ih _ _ (by simp; omega)
        · simp only [scanLines, if_neg hcap, hm, if_neg, Bool.false_eq_true,
            not_false_eq_true]
          exact ih _ _ h

theorem process_file_le (ctx : ScanCtx) (full : String) (c : FileContent)
    (ms : List MatchRecord) (h : ms.length ≤ MAX_MATCHES) :
    ((process_file ctx full c ms).1).length ≤ MAX_MATCHES := by
  unfold process_file
  by_cases hb : lowerString (splitextExt full) ∈ BINARY_EXTENSIONS
  · simpa [hb] using h
  · simp only [hb, if_neg, not_false_eq_true]
    cases c with
    | text lines => exact scanLines_length_le ctx _ lines 1 ms h
    | errorAfter lines =>
        have h2 := scanLines_length_le ctx
          ((ctx.relpath full ctx.sessionRoot).getD full) lines 1 ms h
        rcases hsc : scanLines ctx ((ctx.relpath full ctx.sessionRoot).getD full)
            lines 1 ms with ⟨ms2, sig⟩
        rw [hsc] at h2
        cases sig <;> simpa [hsc] using h2

theorem walkFilesLoop_le (ctx : ScanCtx) :
    ∀ (ds : List FSTree) (root : String) (ms : List MatchRecord),
      ms.length ≤ MAX_MATCHES →
      ((walkFilesLoop ctx root ds ms)).length ≤ MAX_MATCHES := by
  intro ds
  induction ds with
  | nil => intro root ms h; simpa [walkFilesLoop] using h
  | cons t rest ih =>
      intro root ms h
      cases t with
      | dir n cs => simpa [walkFilesLoop] using ih root ms h
      | file name c =>
          by_cases hcap : MAX_MATCHES ≤ ms.length
          · simpa [walkFilesLoop, hcap] using h
          · have hp := process_file_le ctx (pjoin root name) c ms h
            rcases hpf : process_file ctx (pjoin root name) c ms with ⟨ms2, sig⟩
            rw [hpf] at hp
            cases sig with
            | stop => simpa [walkFilesLoop, hcap, hpf] using hp
            | cont =>
                simp only [walkFilesLoop, if_neg hcap, hpf]
                exact ih root ms2 hp

theorem nonrecLoop_le (ctx : ScanCtx) :
    ∀ (ds : List FSTree) (root : String) (ms : List MatchRecord),
      ms.length ≤ MAX_MATCHES →
      ((nonrecLoop ctx root ds ms)).length ≤ MAX_MATCHES := by
  intro ds
  induction ds with
  | nil => intro root ms h; simpa [nonrecLoop] using h
  | cons t rest ih =>
      intro root ms h
      cases t with
      | dir n cs => simpa [nonrecLoop] using ih root ms h
      | file name c =>
          have hp := process_file_le ctx (pjoin root name) c ms h
          rcases hpf : process_file ctx (pjoin root name) c ms with ⟨ms2, sig⟩
          rw [hpf] at hp
          cases sig with
          | stop => simpa [nonrecLoop, hpf] using hp
          | cont =>
              simp only [nonrecLoop, hpf]
              exact ih root ms2 hp

theorem walkList_le (ctx : ScanCtx) :
    ∀ (root : String) (ds : List FSTree) (ms : List MatchRecord),
      ms.length ≤ MAX_MATCHES →
      ((walkList ctx root ds ms).1).length ≤ MAX_MATCHES := by
  intro root ds ms
  induction root, ds, ms using walkList.induct ctx with
  | case1 root ms => intro h; simpa [walkList] using h
  | case2 root name c rest ms ih => intro h; simpa [walkList] using ih h
  | case3 root n cs rest ms hn ih => intro h; simpa [walkList, hn] using ih h
  | case4 root n cs rest ms hn hcap => intro h; simpa [walkList, hn, hcap] using h
  | case5 root n cs rest ms hn hcap r hr ih =>
      intro h
      have h2 := ih (walkFilesLoop_le ctx cs (pjoin root n) ms
        (Nat.le_of_lt (Nat.lt_of_not_le hcap)))
      simp only [walkList, if_neg hn, if_neg hcap]
      split
      · exact h2
      · next hfalse => exact absurd hr hfalse
  | case6 root n cs rest ms hn hcap r hr ih1 ih2 =>
      intro h
      have h2 := ih1 (walkFilesLoop_le ctx cs (pjoin root n) ms
        (Nat.le_of_lt (Nat.lt_of_not_le hcap)))
      have h3 := ih2 h2
      simp only [walkList, if_neg hn, if_neg hcap]
      split
      · next htrue => exact absurd htrue hr
      · exact h3

theorem walkVisit_le (ctx : ScanCtx) (root : String) (ds : List FSTree)
    (ms : List MatchRecord) (h : ms.length ≤ MAX_MATCHES) :
    ((walkVisit ctx root ds ms).1).length ≤ MAX_MATCHES := by
  unfold walkVisit
  by_cases hcap : MAX_MATCHES ≤ ms.length
  · simpa [hcap] using h
  · simp only [hcap, if_neg, not_false_eq_true]
    exact walkList_le ctx root ds _ (walkFilesLoop_le ctx ds root ms h)

/-! ## Every result is an `errDict` or an `okDict` within the cap -/

theorem grep_search_shape (env : Env) (p pat : String) (rec : Bool) :
    (∃ msg, grep_search env p pat rec = errDict msg) ∨
    (∃ ms, grep_search env p pat rec = okDict pat p rec ms ∧
      ms.length ≤ MAX_MATCHES) := by
  unfold grep_search
  cases hc : env.reCompile pat with
  | error msg => exact Or.inl ⟨_, rfl⟩
  | ok regex =>
    cases hr : env.resolve with
    | error e => cases e <;> exact Or.inl ⟨_, rfl⟩
    | ok sp =>
      cases ht : env.target with
      | file c =>
          exact Or.inr ⟨_, rfl, process_file_le _ sp c [] (by simp [MAX_MATCHES])⟩
      | dir children =>
          cases rec with
          | true =>
              exact Or.inr ⟨(walkVisit ⟨regex, env.relpath, env.sessionRoot⟩ sp children []).1,
                by simp, walkVisit_le _ sp children [] (by simp [MAX_MATCHES])⟩
          | false =>
              exact Or.inr ⟨nonrecLoop ⟨regex, env.relpath, env.sessionRoot⟩ sp children [],
                by simp, nonrecLoop_le _ children sp [] (by simp [MAX_MATCHES])⟩
      | missing =>
          cases rec with
          | true => exact Or.inr ⟨[], by simp, by simp [MAX_MATCHES]⟩
          | false => exact Or.inl ⟨"Directory or file not found: " ++ p, by simp⟩

/-! ## Claims C1, C3, C8, C10 -/

/-- Claim C1: for every search request that returns a success envelope, the
total match count equals the length of `matches` and never exceeds the cap of
1000, whatever the tree contains. -/
theorem claim_C1 (env : Env) (p pat : String) (rec : Bool)
    (h : (grep_search env p pat rec).success = some true) :
    ∃ ms, (grep_search env p pat rec).matchList = some ms ∧
      (grep_search env p pat rec).total_matches = some ms.length ∧
      ms.length ≤ 1000 := by
  rcases grep_search_shape env p pat rec with ⟨msg, he⟩ | ⟨ms, hok, hle⟩
  · rw [he] at h
    simp [errDict] at h
  · refine ⟨ms, ?_, ?_, ?_⟩
    · rw [hok]
      rfl
    · rw [hok]
      rfl
    · simpa [MAX_MATCHES] using hle

theorem claim_C1_witness :
    (grep_search envSingle "notes.txt" "hit" false).success = some true ∧
    ∃ ms, (grep_search envSingle "notes.txt" "hit" false).matchList = some ms ∧
      (grep_search envSingle "notes.txt" "hit" false).total_matches = some ms.length ∧
      ms.length ≤ 1000 :=
  ⟨by decide, claim_C1 envSingle "notes.txt" "hit" false (by decide)⟩

/-- Claim C3: a pattern that fails to compile yields the invalid-pattern error
envelope, and the result is then independent of the resolver outcome, session
root, relpath behaviour and filesystem contents — so neither the resolver nor
the filesystem can influence (or be touched by) such a request. -/
theorem claim_C3 (env env2 : Env) (p p2 pat : String) (rec rec2 : Bool)
    (msg : String) (h : env.reCompile pat = Except.error msg)
    (h2 : env2.reCompile pat = Except.error msg) :
    grep_search env p pat rec = errDict ("Invalid regex pattern: " ++ msg) ∧
    grep_search env p pat rec = grep_search env2 p2 pat rec2 := by
  have e1 : grep_search env p pat rec = errDict ("Invalid regex pattern: " ++ msg) := by
    unfold grep_search
    rw [h]
  have e2 : grep_search env2 p2 pat rec2 = errDict ("Invalid regex pattern: " ++ msg) := by
    unfold grep_search
    rw [h2]
  exact ⟨e1, e1.trans e2.symm⟩

theorem claim_C3_witness :
    grep_search envBadPattern "a" "(" true =
      errDict ("Invalid regex pattern: " ++ "missing ), unterminated subpattern") ∧
    grep_search envBadPattern "a" "(" true = grep_search envBadPattern2 "b" "(" false :=
  claim_C3 envBadPattern envBadPattern2 "a" "b" "(" true false
    "missing ), unterminated subpattern" rfl rfl

/-- Claim C8: every result is exactly one of the two mutually exclusive
envelope shapes; and whenever the resolved target does not exist (under the
spec-modelled resolver) or top-level access is denied, the result is the error
envelope — in recursive mode as well. -/
theorem claim_C8 (env : Env) (p pat : String) (rec : Bool)
    (hres : resolverConsistent env) :
    ((isSuccessShape (grep_search env p pat rec) ∨
        isErrorShape (grep_search env p pat rec)) ∧
      ¬(isSuccessShape (grep_search env p pat rec) ∧
        isErrorShape (grep_search env p pat rec))) ∧
    ((env.target = Target.missing ∨
        env.resolve = Except.error ResolveError.permissionDenied) →
      isErrorShape (grep_search env p pat rec)) := by
  refine ⟨⟨?_, ?_⟩, ?_⟩
  · rcases grep_search_shape env p pat rec with ⟨msg, he⟩ | ⟨ms, hok, _⟩
    · right
      rw [he]
      simp [errDict, isErrorShape]
    · left
      rw [hok]
      simp [okDict, isSuccessShape]
  · rintro ⟨hs, herr⟩
    have h1 : ((grep_search env p pat rec).error).isSome = true := herr.1
    have he : (grep_search env p pat rec).error = none := hs.2.2.2.2.2.2
    rw [he] at h1
    simp at h1
  · intro hcase
    cases hc : env.reCompile pat with
    | error msg =>
        unfold grep_search
        rw [hc]
        simp [errDict, isErrorShape]
    | ok regex =>
        have hre : ∃ e, env.resolve = Except.error e := by
          rcases hcase with hmiss | hperm
          · exact hres hmiss
          · exact ⟨_, hperm⟩
        rcases hre with ⟨e, he⟩
        unfold grep_search
        rw [hc, he]
        cases e <;> simp [errDict, isErrorShape]

theorem claim_C8_witness :
    resolverConsistent envMissing ∧
    (((isSuccessShape (grep_search envMissing "gone" "x" true) ∨
        isErrorShape (grep_search envMissing "gone" "x" true)) ∧
      ¬(isSuccessShape (grep_search envMissing "gone" "x" true) ∧
        isErrorShape (grep_search envMissing "gone" "x" true))) ∧
     ((envMissing.target = Target.missing ∨
        envMissing.resolve = Except.error ResolveError.permissionDenied) →
      isErrorShape (grep_search envMissing "gone" "x" true))) :=
  ⟨fun _ => ⟨ResolveError.notFound, rfl⟩,
   claim_C8 envMissing "gone" "x" true (fun _ => ⟨ResolveError.notFound, rfl⟩)⟩

/-- Claim C10: when the resolved target is a single file with a binary
extension, the request succeeds with an empty match list and total 0. -/
theorem claim_C10 (env : Env) (p pat : String) (rec : Bool)
    (regex : String → Bool) (sp : String) (c : FileContent)
    (hc : env.reCompile pat = Except.ok regex) (hr : env.resolve = Except.ok sp)
    (ht : env.target = Target.file c)
    (hbin : lowerString (splitextExt sp) ∈ BINARY_EXTENSIONS) :
    grep_search env p pat rec = okDict pat p rec [] ∧
    (grep_search env p pat rec).success = some true ∧
    (grep_search env p pat rec).matchList = some [] ∧
    (grep_search env p pat rec).total_matches = some 0 := by
  have e1 : grep_search env p pat rec = okDict pat p rec [] := by
    unfold grep_search
    rw [hc, hr, ht]
    simp [process_file, hbin]
  refine ⟨e1, ?_, ?_, ?_⟩ <;> rw [e1] <;> rfl

theorem claim_C10_witness :
    lowerString (splitextExt "/ws/w/a/s/icon.png") ∈ BINARY_EXTENSIONS ∧
    grep_search envBinarySingle "icon.png" "hit" false = okDict "hit" "icon.png" false [] ∧
    (grep_search envBinarySingle "icon.png" "hit" false).success = some true ∧
    (grep_search envBinarySingle "icon.png" "hit" false).matchList = some [] ∧
    (grep_search envBinarySingle "icon.png" "hit" false).total_matches = some 0 :=
  ⟨by decide,
   claim_C10 envBinarySingle "icon.png" "hit" false (fun line => line = "hit")
     "/ws/w/a/s/icon.png" (FileContent.text ["hit"]) rfl rfl rfl (by decide)⟩

/-! ## Files that `process_file` skips contribute nothing, in any mode -/

theorem process_file_binary (ctx : ScanCtx) (full : String) (c : FileContent)
    (ms : List MatchRecord) (hb : lowerString (splitextExt full) ∈ BINARY_EXTENSIONS) :
    process_file ctx full c ms = (ms, ScanSignal.cont) := by
  simp [process_file, hb]

theorem process_file_unopenable (ctx : ScanCtx) (full : String)
    (ms : List MatchRecord) :
    process_file ctx full (FileContent.errorAfter []) ms = (ms, ScanSignal.cont) := by
  by_cases hb : lowerString (splitextExt full) ∈ BINARY_EXTENSIONS <;>
    simp [process_file, scanLines, hb]

theorem walkFilesLoop_saturated (ctx : ScanCtx) :
    ∀ (ds : List FSTree) (root : String) (ms : List MatchRecord),
      MAX_MATCHES ≤ ms.length → walkFilesLoop ctx root ds ms = ms := by
  intro ds
  induction ds with
  | nil => intro root ms _; simp [walkFilesLoop]
  | cons t rest ih =>
      intro root ms h
      cases t with
      | dir n cs => simpa [walkFilesLoop] using ih root ms h
      | file name c => simp [walkFilesLoop, h]

theorem walkFilesLoop_removeFiles (ctx : ScanCtx) (dead : String → FileContent → Bool)
    (hdead : ∀ full c ms, dead full c = true →
      process_file ctx full c ms = (ms, ScanSignal.cont)) :
    ∀ (ds : List FSTree) (root : String) (ms : List MatchRecord),
      walkFilesLoop ctx root (removeFiles dead root ds) ms =
        walkFilesLoop ctx root ds ms := by
  intro ds
  induction ds with
  | nil => intro root ms; simp [removeFiles]
  | cons t rest ih =>
      intro root ms
      cases t with
      | dir n cs => simpa [removeFiles, walkFilesLoop] using ih root ms
      | file name c =>
          by_cases hd : dead (pjoin root name) c = true
          · by_cases hcap : MAX_MATCHES ≤ ms.length
            · simp [removeFiles, hd, walkFilesLoop, hcap, ih root ms,
                walkFilesLoop_saturated ctx rest root ms hcap]
            · simp [removeFiles, hd, walkFilesLoop, hcap, hdead _ _ _ hd, ih root ms]
          · simp only [removeFiles, hd, if_neg, Bool.false_eq_true, not_false_eq_true]
            by_cases hcap : MAX_MATCHES ≤ ms.length
            · simp [walkFilesLoop, hcap]
            · rcases hpf : process_file ctx (pjoin root name) c ms with ⟨ms2, sig⟩
              cases sig <;> simp [walkFilesLoop, hcap, hpf, ih root ms2]

theorem nonrecLoop_removeFiles (ctx : ScanCtx) (dead : String → FileContent → Bool)
    (hdead : ∀ full c ms, dead full c = true →
      process_file ctx full c ms = (ms, ScanSignal.cont)) :
    ∀ (ds : List FSTree) (root : String) (ms : List MatchRecord),
      nonrecLoop ctx root (removeFiles dead root ds) ms = nonrecLoop ctx root ds ms := by
  intro ds
  induction ds with
  | nil => intro root ms; simp [removeFiles]
  | cons t rest ih =>
      intro root ms
      cases t with
      | dir n cs => simpa [removeFiles, nonrecLoop] using ih root ms
      | file name c =>
          by_cases hd : dead (pjoin root name) c = true
          · simp [removeFiles, hd, nonrecLoop, hdead _ _ _ hd, ih root ms]
          · simp only [removeFiles, hd, if_neg, Bool.false_eq_true, not_false_eq_true]
            rcases hpf : process_file ctx (pjoin root name) c ms with ⟨ms2, sig⟩
            cases sig <;> simp [nonrecLoop, hpf, ih root ms2]

theorem walkList_removeFiles (ctx : ScanCtx) (dead : String → FileContent → Bool)
    (hdead : ∀ full c ms, dead full c = true →
      process_file ctx full c ms = (ms, ScanSignal.cont)) :
    ∀ (root : String) (ds : List FSTree) (ms : List MatchRecord),
      walkList ctx root (removeFiles dead root ds) ms = walkList ctx root ds ms := by
  intro root ds ms
  induction root, ds, ms using walkList.induct ctx with
  | case1 root ms => simp [removeFiles]
  | case2 root name c rest ms ih =>
      by_cases hd : dead (pjoin root name) c = true <;>
        simp [removeFiles, hd, walkList, ih]
  | case3 root n cs rest ms hn ih =>
      simp [removeFiles, walkList, hn, ih]
  | case4 root n cs rest ms hn hcap =>
      simp [removeFiles, walkList, hn, hcap]
  | case5 root n cs rest ms hn hcap r hr ih =>
      have hfl := walkFilesLoop_removeFiles ctx dead hdead cs (pjoin root n) ms
      simp only [removeFiles, walkList, if_neg hn, if_neg hcap, hfl, ih]
      split
      · rfl
      · next hfalse => exact absurd hr hfalse
  | case6 root n cs rest ms hn hcap r hr ih1 ih2 =>
      have hfl := walkFilesLoop_removeFiles ctx dead hdead cs (pjoin root n) ms
      simp only [removeFiles, walkList, if_neg hn, if_neg hcap, hfl, ih1]
      split
      · next htrue => exact absurd htrue hr
      · exact ih2

theorem walkVisit_removeFiles (ctx : ScanCtx) (dead : String → FileContent → Bool)
    (hdead : ∀ full c ms, dead full c = true →
      process_file ctx full c ms = (ms, ScanSignal.cont))
    (root : String) (ds : List FSTree) (ms : List MatchRecord) :
    walkVisit ctx root (removeFiles dead root ds) ms = walkVisit ctx root ds ms := by
  unfold walkVisit
  by_cases hcap : MAX_MATCHES ≤ ms.length
  · simp [hcap]
  · simp only [hcap, if_neg, not_false_eq_true,
      walkFilesLoop_removeFiles ctx dead hdead ds root ms,
      walkList_removeFiles ctx dead hdead root ds]

theorem nonrecLoop_filterFiles (ctx : ScanCtx) :
    ∀ (ds : List FSTree) (root : String) (ms : List MatchRecord),
      nonrecLoop ctx root (ds.filter isFileNode) ms = nonrecLoop ctx root ds ms := by
  intro ds
  induction ds with
  | nil => intro root ms; rfl
  | cons t rest ih =>
      intro root ms
      cases t with
      | dir n cs => simpa [List.filter, isFileNode, nonrecLoop] using ih root ms
      | file name c =>
          simp only [List.filter, isFileNode]
          rcases hpf : process_file ctx (pjoin root name) c ms with ⟨ms2, sig⟩
          cases sig <;> simp [nonrecLoop, hpf, ih root ms2]

theorem isBinaryName_dead (ctx : ScanCtx) :
    ∀ (full : String) (c : FileContent) (ms : List MatchRecord),
      isBinaryName full c = true → process_file ctx full c ms = (ms, ScanSignal.cont) := by
  intro full c ms h
  exact process_file_binary ctx full c ms (by simpa [isBinaryName] using h)

theorem isUnopenable_dead (ctx : ScanCtx) :
    ∀ (full : String) (c : FileContent) (ms : List MatchRecord),
      isUnopenable full c = true → process_file ctx full c ms = (ms, ScanSignal.cont) := by
  intro full c ms h
  cases c with
  | text lines => simp [isUnopenable] at h
  | errorAfter lines =>
      cases lines with
      | nil => exact process_file_unopenable ctx full ms
      | cons a b => simp [isUnopenable] at h

/-! ## Claims C5, C6, C7 -/

/-- Claim C5: a candidate file whose lower-cased extension is in the
binary-extension set never contributes a record: a binary single-file target
succeeds with no matches, and for a directory target (recursive or not)
deleting every binary-extension file from the tree leaves the result
unchanged, whatever those files contain. -/
theorem claim_C5 (env : Env) (p pat : String) (rec : Bool)
    (regex : String → Bool) (sp : String)
    (hc : env.reCompile pat = Except.ok regex)
    (hr : env.resolve = Except.ok sp) :
    (∀ c, env.target = Target.file c →
      lowerString (splitextExt sp) ∈ BINARY_EXTENSIONS →
      grep_search env p pat rec = okDict pat p rec []) ∧
    (∀ children, env.target = Target.dir children →
      grep_search env p pat rec =
        grep_search (withTarget env
          (Target.dir (removeFiles isBinaryName sp children))) p pat rec) := by
  constructor
  · intro c ht hbin
    unfold grep_search
    rw [hc, hr, ht]
    simp [process_file, hbin]
  · intro children ht
    unfold grep_search withTarget
    dsimp only
    rw [hc, hr, ht]
    cases rec with
    | true =>
        simp only [if_pos]
        rw [walkVisit_removeFiles ⟨regex, env.relpath, env.sessionRoot⟩ isBinaryName
          (isBinaryName_dead _) sp children []]
    | false =>
        simp only [Bool.false_eq_true, if_neg, not_false_eq_true]
        rw [nonrecLoop_removeFiles ⟨regex, env.relpath, env.sessionRoot⟩ isBinaryName
          (isBinaryName_dead _) children sp []]

theorem claim_C5_witness :
    (∀ c, envBinaryDir.target = Target.file c →
      lowerString (splitextExt "/ws/w/a/s") ∈ BINARY_EXTENSIONS →
      grep_search envBinaryDir "." "hit" false = okDict "hit" "." false []) ∧
    (∀ children, envBinaryDir.target = Target.dir children →
      grep_search envBinaryDir "." "hit" false =
        grep_search (withTarget envBinaryDir
          (Target.dir (removeFiles isBinaryName "/ws/w/a/s" children))) "." "hit" false) :=
  claim_C5 envBinaryDir "." "hit" false (fun line => line = "hit") "/ws/w/a/s" rfl rfl

/-- Claim C6: with `recursive = False` and a directory target, only the
immediate child files matter: deleting every subdirectory (with everything
inside it) from the listing leaves the result unchanged, so no file inside a
subdirectory can appear in the matches. -/
theorem claim_C6 (env : Env) (p pat : String) (children : List FSTree)
    (ht : env.target = Target.dir children) :
    grep_search env p pat false =
      grep_search (withTarget env
        (Target.dir (children.filter isFileNode))) p pat false := by
  unfold grep_search withTarget
  dsimp only
  cases hc : env.reCompile pat with
  | error msg => rfl
  | ok regex =>
    cases hr : env.resolve with
    | error e => cases e <;> rfl
    | ok sp =>
        rw [ht]
        simp only [Bool.false_eq_true, if_neg, not_false_eq_true]
        rw [nonrecLoop_filterFiles ⟨regex, env.relpath, env.sessionRoot⟩ children sp []]

theorem claim_C6_witness :
    grep_search envWithSubdir "." "hit" false =
      grep_search (withTarget envWithSubdir
        (Target.dir ([FSTree.file "a.txt" (FileContent.text ["hit"]),
          FSTree.dir "sub" [FSTree.file "b.txt" (FileContent.text ["hit"])]].filter
            isFileNode))) "." "hit" false :=
  claim_C6 envWithSubdir "." "hit"
    [FSTree.file "a.txt" (FileContent.text ["hit"]),
     FSTree.dir "sub" [FSTree.file "b.txt" (FileContent.text ["hit"])]] rfl

/-- Claim C7: once the pattern compiles and the target resolves, per-file
open/read failures never produce an error envelope: the result is a success
envelope, and deleting every file whose open fails from a directory tree
leaves the result unchanged (such files are skipped and the search continues
over the rest). -/
theorem claim_C7 (env : Env) (p pat : String) (rec : Bool)
    (regex : String → Bool) (sp : String)
    (hc : env.reCompile pat = Except.ok regex)
    (hr : env.resolve = Except.ok sp)
    (hm : env.target ≠ Target.missing) :
    (grep_search env p pat rec).error = none ∧
    (grep_search env p pat rec).success = some true ∧
    (∀ children, env.target = Target.dir children →
      grep_search env p pat rec =
        grep_search (withTarget env
          (Target.dir (removeFiles isUnopenable sp children))) p pat rec) := by
  refine ⟨?_, ?_, ?_⟩
  · unfold grep_search
    rw [hc, hr]
    cases ht : env.target with
    | file c => rfl
    | dir children => cases rec <;> rfl
    | missing => exact absurd ht hm
  · unfold grep_search
    rw [hc, hr]
    cases ht : env.target with
    | file c => rfl
    | dir children => cases rec <;> rfl
    | missing => exact absurd ht hm
  · intro children ht
    unfold grep_search withTarget
    dsimp only
    rw [hc, hr, ht]
    cases rec with
    | true =>
        simp only [if_pos]
        rw [walkVisit_removeFiles ⟨regex, env.relpath, env.sessionRoot⟩ isUnopenable
          (isUnopenable_dead _) sp children []]
    | false =>
        simp only [Bool.false_eq_true, if_neg, not_false_eq_true]
        rw [nonrecLoop_removeFiles ⟨regex, env.relpath, env.sessionRoot⟩ isUnopenable
          (isUnopenable_dead _) children sp []]

theorem claim_C7_witness :
    (grep_search envWithUnreadable "." "hit" false).error = none ∧
    (grep_search envWithUnreadable "." "hit" false).success = some true ∧
    (∀ children, envWithUnreadable.target = Target.dir children →
      grep_search envWithUnreadable "." "hit" false =
        grep_search (withTarget envWithUnreadable
          (Target.dir (removeFiles isUnopenable "/ws/w/a/s" children))) "." "hit" false) :=
  claim_C7 envWithUnreadable "." "hit" false (fun line => line = "hit") "/ws/w/a/s"
    rfl rfl (by simp [envWithUnreadable])

/-! ## Exact match counting for a single text file (claim C2) -/

theorem scanLines_length_eq (ctx : ScanCtx) (display : String) :
    ∀ (lines : List String) (i : Nat) (ms : List MatchRecord),
      ms.length ≤ MAX_MATCHES →
      ((scanLines ctx display lines i ms).1).length =
        min MAX_MATCHES (ms.length + lines.countP ctx.regex) := by
  intro lines
  induction lines with
  | nil =>
      intro i ms h
      simp only [scanLines, List.countP_nil, Nat.add_zero]
      omega
  | cons line rest ih =>
      intro i ms h
      by_cases hcap : MAX_MATCHES ≤ ms.length
      · have he : ms.length = MAX_MATCHES := Nat.le_antisymm h hcap
        simp only [scanLines, if_pos hcap]
        omega
      · have hlt : ms.length < MAX_MATCHES := Nat.lt_of_not_le hcap
        by_cases hm : ctx.regex line = true
        · simp only [scanLines, if_neg hcap, hm, if_pos]
          rw [ih (i + 1) (ms ++ [MatchRecord.mk display i (stripString line)]) (by simp; omega)]
          simp [List.countP_cons, hm]
          omega
        · simp only [scanLines, if_neg hcap, hm, if_neg, Bool.false_eq_true,
            not_false_eq_true]
          rw [ih (i + 1) ms h]
          simp [List.countP_cons, hm]

theorem grep_search_single_text (env : Env) (p pat : String) (rec : Bool)
    (regex : String → Bool) (sp : String) (lines : List String)
    (hc : env.reCompile pat = Except.ok regex)
    (hr : env.resolve = Except.ok sp)
    (ht : env.target = Target.file (FileContent.text lines))
    (hext : lowerString (splitextExt sp) ∉ BINARY_EXTENSIONS) :
    (grep_search env p pat rec).total_matches =
      some (min MAX_MATCHES (lines.countP regex)) ∧
    (grep_search env p pat rec).warning =
      (if MAX_MATCHES ≤ lines.countP regex then some capWarning else none) := by
  have hms : grep_search env p pat rec =
      okDict pat p rec
        (scanLines ⟨regex, env.relpath, env.sessionRoot⟩
          ((env.relpath sp env.sessionRoot).getD sp) lines 1 []).1 := by
    unfold grep_search
    rw [hc, hr, ht]
    simp [process_file, hext]
  have hlen := scanLines_length_eq ⟨regex, env.relpath, env.sessionRoot⟩
    ((env.relpath sp env.sessionRoot).getD sp) lines 1 [] (by simp [MAX_MATCHES])
  simp only [List.length_nil, Nat.zero_add] at hlen
  constructor
  · rw [hms]
    simp only [okDict, hlen]
  · rw [hms]
    simp only [okDict, hlen]
    by_cases hcap : MAX_MATCHES ≤ lines.countP regex
    · rw [if_pos hcap, if_pos (by omega)]
    · rw [if_neg hcap, if_neg (by omega)]

theorem countP_replicate_of_pos (n : Nat) (a : String) (p : String → Bool)
    (hp : p a = true) : (List.replicate n a).countP p = n := by
  induction n with
  | zero => rfl
  | succ k ih => simp [List.replicate, List.countP_cons, hp, ih]

/-- Claim C2, counterexample to the claim as stated: a single text file with
exactly 1000 matching lines still carries the `warning` field (the code adds
it whenever `len(matches) >= MAX_MATCHES`, which exact saturation triggers),
while the claim says a file with exactly 1000 matching lines has none. -/
theorem claim_C2_counterexample :
    (List.replicate 1000 "hit").countP (fun _ => true) = 1000 ∧
    (grep_search envThousand "big.log" "." false).total_matches = some 1000 ∧
    (grep_search envThousand "big.log" "." false).warning = some capWarning := by
  have hcount : (List.replicate 1000 "hit").countP (fun _ => true) = 1000 :=
    countP_replicate_of_pos 1000 "hit" (fun _ => true) rfl
  have h := grep_search_single_text envThousand "big.log" "." false (fun _ => true)
    "/ws/w/a/s/big.log" (List.replicate 1000 "hit") rfl rfl rfl (by decide)
  rw [hcount] at h
  refine ⟨hcount, ?_, ?_⟩
  · rw [h.1]
    simp [MAX_MATCHES]
  · rw [h.2]
    simp [MAX_MATCHES]

/-- Claim C2 as amended: for a single text-file target,
`total_matches = min 1000 (number of matching lines)` and the `warning` field
is present exactly when at least 1000 lines match; so ≥ 1001 matching lines
give exactly 1000 with a warning, ≤ 999 give no warning, but exactly 1000
matching lines also carry the warning. -/
theorem claim_C2_amended (env : Env) (p pat : String) (rec : Bool)
    (regex : String → Bool) (sp : String) (lines : List String)
    (hc : env.reCompile pat = Except.ok regex)
    (hr : env.resolve = Except.ok sp)
    (ht : env.target = Target.file (FileContent.text lines))
    (hext : lowerString (splitextExt sp) ∉ BINARY_EXTENSIONS) :
    (grep_search env p pat rec).total_matches =
      some (min 1000 (lines.countP regex)) ∧
    ((grep_search env p pat rec).warning = none ↔ lines.countP regex < 1000) ∧
    (1001 ≤ lines.countP regex →
      (grep_search env p pat rec).total_matches = some 1000 ∧
      (grep_search env p pat rec).warning = some capWarning) := by
  have h := grep_search_single_text env p pat rec regex sp lines hc hr ht hext
  refine ⟨by simpa [MAX_MATCHES] using h.1, ?_, ?_⟩
  · rw [h.2]
    by_cases hcap : MAX_MATCHES ≤ lines.countP regex
    · simp only [if_pos hcap]
      constructor
      · intro hfalse
        exact absurd hfalse (by simp)
      · intro hlt
        exact absurd hlt (by simp [MAX_MATCHES] at hcap ⊢; omega)
    · simp only [if_neg hcap]
      simp [MAX_MATCHES] at hcap
      simp [hcap]
  · intro h1001
    have hcap : MAX_MATCHES ≤ lines.countP regex := by
      simp [MAX_MATCHES]; omega
    constructor
    · rw [h.1]
      congr 1
      simp [MAX_MATCHES]
      omega
    · rw [h.2, if_pos hcap]

theorem claim_C2_amended_witness :
    (grep_search envSingle "notes.txt" "hit" false).total_matches =
      some (min 1000 ((["hit", "miss"] : List String).countP (fun line => line = "hit"))) ∧
    ((grep_search envSingle "notes.txt" "hit" false).warning = none ↔
      (["hit", "miss"] : List String).countP (fun line => line = "hit") < 1000) ∧
    (1001 ≤ (["hit", "miss"] : List String).countP (fun line => line = "hit") →
      (grep_search envSingle "notes.txt" "hit" false).total_matches = some 1000 ∧
      (grep_search envSingle "notes.txt" "hit" false).warning = some capWarning) :=
  claim_C2_amended envSingle "notes.txt" "hit" false (fun line => line = "hit")
    "/ws/w/a/s/notes.txt" ["hit", "miss"] rfl rfl rfl (by decide)

/-! ## Deep pruning of ignored directories (claim C4) -/

theorem walkFilesLoop_pruneIgnored (ctx : ScanCtx) :
    ∀ (ds : List FSTree) (root : String) (ms : List MatchRecord),
      walkFilesLoop ctx root (pruneIgnored ds) ms = walkFilesLoop ctx root ds ms := by
  intro ds
  induction ds with
  | nil => intro root ms; simp [pruneIgnored]
  | cons t rest ih =>
      intro root ms
      cases t with
      | dir n cs =>
          by_cases hn : n ∈ IGNORED_DIRS <;>
            simp [pruneIgnored, hn, walkFilesLoop, ih root ms]
      | file name c =>
          by_cases hcap : MAX_MATCHES ≤ ms.length
          · simp [pruneIgnored, walkFilesLoop, hcap]
          · rcases hpf : process_file ctx (pjoin root name) c ms with ⟨ms2, sig⟩
            cases sig <;> simp [pruneIgnored, walkFilesLoop, hcap, hpf, ih root ms2]

theorem walkList_pruneIgnored (ctx : ScanCtx) :
    ∀ (root : String) (ds : List FSTree) (ms : List MatchRecord),
      walkList ctx root (pruneIgnored ds) ms = walkList ctx root ds ms := by
  intro root ds ms
  induction root, ds, ms using walkList.induct ctx with
  | case1 root ms => simp [pruneIgnored]
  | case2 root name c rest ms ih => simp [pruneIgnored, walkList, ih]
  | case3 root n cs rest ms hn ih => simp [pruneIgnored, hn, walkList, ih]
  | case4 root n cs rest ms hn hcap =>
      simp [pruneIgnored, hn, walkList, hcap]
  | case5 root n cs rest ms hn hcap r hr ih =>
      have hfl := walkFilesLoop_pruneIgnored ctx cs (pjoin root n) ms
      simp only [pruneIgnored, if_neg hn, walkList, if_neg hcap, hfl, ih]
      split
      · rfl
      · next hfalse => exact absurd hr hfalse
  | case6 root n cs rest ms hn hcap r hr ih1 ih2 =>
      have hfl := walkFilesLoop_pruneIgnored ctx cs (pjoin root n) ms
      simp only [pruneIgnored, if_neg hn, walkList, if_neg hcap, hfl, ih1]
      split
      · next htrue => exact absurd htrue hr
      · exact ih2

theorem walkVisit_pruneIgnored (ctx : ScanCtx) (root : String) (ds : List FSTree)
    (ms : List MatchRecord) :
    walkVisit ctx root (pruneIgnored ds) ms = walkVisit ctx root ds ms := by
  unfold walkVisit
  by_cases hcap : MAX_MATCHES ≤ ms.length
  · simp [hcap]
  · simp only [hcap, if_neg, not_false_eq_true,
      walkFilesLoop_pruneIgnored ctx ds root ms,
      walkList_pruneIgnored ctx root ds]

/-- The recursive branch for a resolved directory target, spelled out. -/
theorem grep_search_dir_rec (env : Env) (p pat : String)
    (regex : String → Bool) (sp : String) (children : List FSTree)
    (hc : env.reCompile pat = Except.ok regex)
    (hr : env.resolve = Except.ok sp)
    (ht : env.target = Target.dir children) :
    grep_search env p pat true =
      okDict pat p true
        (walkVisit ⟨regex, env.relpath, env.sessionRoot⟩ sp children []).1 := by
  unfold grep_search
  rw [hc, hr, ht]
  rfl

/-! ## Claim C4 -/

/-- Claim C4, counterexample to the claim as stated: when the resolved search
target is itself a directory named `node_modules`, its contents are scanned —
`os.walk` prunes only subdirectories of visited directories, never the root it
starts from — so a file inside a directory whose name is in `IGNORED_DIRS`
does appear in the matches. -/
theorem claim_C4_counterexample :
    "node_modules" ∈ IGNORED_DIRS ∧
    (grep_search envRootIgnoredName "node_modules" "hit" true).matchList =
      some [MatchRecord.mk "node_modules/a.txt" 1 "hit"] := by
  refine ⟨by decide, ?_⟩
  rw [grep_search_dir_rec envRootIgnoredName "node_modules" "hit"
    (fun line => line = "hit") "/ws/w/a/s/node_modules"
    [FSTree.file "a.txt" (FileContent.text ["hit"])] rfl rfl rfl]
  rw [show walkVisit ⟨fun line => line = "hit", envRootIgnoredName.relpath,
      envRootIgnoredName.sessionRoot⟩ "/ws/w/a/s/node_modules"
      [FSTree.file "a.txt" (FileContent.text ["hit"])] [] =
      (walkFilesLoop ⟨fun line => line = "hit", envRootIgnoredName.relpath,
        envRootIgnoredName.sessionRoot⟩ "/ws/w/a/s/node_modules"
        [FSTree.file "a.txt" (FileContent.text ["hit"])] [], false) from by
    simp [walkVisit, walkList, MAX_MATCHES]]
  decide

/-- Claim C4 as amended: in recursive mode, every directory *strictly below*
the resolved search root whose name is in `IGNORED_DIRS` is pruned before
descent: deleting all such directories (with everything inside them, at any
depth) from the tree leaves the result unchanged, so no file inside them ever
appears in the matches; the resolved root itself is however walked even when
its own name is in the excluded set. -/
theorem claim_C4_amended (env : Env) (p pat : String) (children : List FSTree)
    (ht : env.target = Target.dir children) :
    grep_search env p pat true =
      grep_search (withTarget env (Target.dir (pruneIgnored children))) p pat true := by
  unfold grep_search withTarget
  dsimp only
  cases hc : env.reCompile pat with
  | error msg => rfl
  | ok regex =>
    cases hr : env.resolve with
    | error e => cases e <;> rfl
    | ok sp =>
        rw [ht]
        simp only [if_pos]
        rw [walkVisit_pruneIgnored ⟨regex, env.relpath, env.sessionRoot⟩ sp children []]

theorem claim_C4_amended_witness :
    grep_search envWithIgnored "." "hit" true =
      grep_search (withTarget envWithIgnored
        (Target.dir (pruneIgnored
          [FSTree.file "a.txt" (FileContent.text ["hit"]),
           FSTree.dir "node_modules" [FSTree.file "b.txt" (FileContent.text ["hit"])]]))) "." "hit" true :=
  claim_C4_amended envWithIgnored "." "hit"
    [FSTree.file "a.txt" (FileContent.text ["hit"]),
     FSTree.dir "node_modules" [FSTree.file "b.txt" (FileContent.text ["hit"])]] rfl

/-! ## Claim C9 -/

/-- Claim C9, counterexample to the claim as stated: display paths are
computed relative to the *session root*, not the *resolved search root*.
Searching the subdirectory `sub` of the session root, the emitted record
carries `"sub/f.txt"`, while the path relative to the resolved root
(`/ws/w/a/s/sub`) is computable and equals `"f.txt"`. -/
theorem claim_C9_counterexample :
    (grep_search envSubdirTarget "sub" "hit" false).matchList =
      some [MatchRecord.mk "sub/f.txt" 1 "hit"] ∧
    modelRelpath "/ws/w/a/s/sub/f.txt" "/ws/w/a/s/sub" = some "f.txt" ∧
    ("sub/f.txt" : String) ≠ "f.txt" :=
  ⟨by decide, by decide, by decide⟩

/-! ## Provenance of match records (claim C9) -/

theorem scannedFrom_mono (ctx : ScanCtx) {c1 c2 : List (String × List String)}
    (hsub : ∀ x, x ∈ c1 → x ∈ c2) (m : MatchRecord)
    (h : scannedFrom ctx c1 m) : scannedFrom ctx c2 m := by
  rcases h with ⟨full, lines, hmem, hrest⟩
  exact ⟨full, lines, hsub _ hmem, hrest⟩

theorem mem_treeFiles_of_fileCands (x : String × List String) :
    ∀ (ds : List FSTree) (root : String), x ∈ fileCands root ds →
      x ∈ treeFiles root ds := by
  intro ds
  induction ds with
  | nil => intro root h; simp [fileCands] at h
  | cons t rest ih =>
      intro root h
      cases t with
      | file n c =>
          simp only [fileCands, List.mem_cons] at h
          rcases h with he | hrest
          · simp [treeFiles, he]
          · simp only [treeFiles, List.mem_cons]
            exact Or.inr (ih root hrest)
      | dir n cs =>
          simp only [fileCands] at h
          simp only [treeFiles, List.mem_append]
          exact Or.inr (ih root h)

theorem scanLines_mem (ctx : ScanCtx) (display : String) :
    ∀ (lines : List String) (i : Nat) (ms : List MatchRecord) (m : MatchRecord),
      m ∈ (scanLines ctx display lines i ms).1 →
      m ∈ ms ∨ (m.file = display ∧ i ≤ m.line_number ∧
        ∃ line, lines.get? (m.line_number - i) = some line ∧
          m.line_content = stripString line ∧ ctx.regex line = true) := by
  intro lines
  induction lines with
  | nil => intro i ms m hmem; exact Or.inl (by simpa [scanLines] using hmem)
  | cons line rest ih =>
      intro i ms m hmem
      by_cases hcap : MAX_MATCHES ≤ ms.length
      · exact Or.inl (by simpa [scanLines, hcap] using hmem)
      · by_cases hm : ctx.regex line = true
        · simp only [scanLines, if_neg hcap, hm, if_pos] at hmem
          rcases ih (i + 1) (ms ++ [MatchRecord.mk display i (stripString line)]) m hmem with
            hin | ⟨hf, hi, line2, hget, hcont, hreg⟩
          · rcases List.mem_append.1 hin with hin2 | hin2
            · exact Or.inl hin2
            · have he : m = MatchRecord.mk display i (stripString line) :=
                List.mem_singleton.1 hin2
              subst he
              exact Or.inr ⟨rfl, Nat.le_refl i,
                ⟨line, by simp [Nat.sub_self], rfl, hm⟩⟩
          · refine Or.inr ⟨hf, by omega, ⟨line2, ?_, hcont, hreg⟩⟩
            have hidx : m.line_number - i = (m.line_number - (i + 1)) + 1 := by omega
            rw [hidx, List.get?_cons_succ]
            exact hget
        · simp only [scanLines, if_neg hcap, hm, if_neg, Bool.false_eq_true,
            not_false_eq_true] at hmem
          rcases ih (i + 1) ms m hmem with hin | ⟨hf, hi, line2, hget, hcont, hreg⟩
          · exact Or.inl hin
          · refine Or.inr ⟨hf, by omega, ⟨line2, ?_, hcont, hreg⟩⟩
            have hidx : m.line_number - i = (m.line_number - (i + 1)) + 1 := by omega
            rw [hidx, List.get?_cons_succ]
            exact hget

theorem process_file_mem (ctx : ScanCtx) (full : String) (c : FileContent)
    (ms : List MatchRecord) (m : MatchRecord)
    (hmem : m ∈ (process_file ctx full c ms).1) :
    m ∈ ms ∨ scannedFrom ctx [(full, FileContent.linesOf c)] m := by
  by_cases hb : lowerString (splitextExt full) ∈ BINARY_EXTENSIONS
  · exact Or.inl (by simpa [process_file, hb] using hmem)
  · have hscan : m ∈ (scanLines ctx ((ctx.relpath full ctx.sessionRoot).getD full)
        (FileContent.linesOf c) 1 ms).1 →
        m ∈ ms ∨ scannedFrom ctx [(full, FileContent.linesOf c)] m := by
      intro hmem2
      rcases scanLines_mem ctx _ (FileContent.linesOf c) 1 ms m hmem2 with
        hin | ⟨hf, hi, line, hget, hcont, hreg⟩
      · exact Or.inl hin
      · exact Or.inr ⟨full, FileContent.linesOf c, List.mem_singleton.2 rfl,
          hf, hi, ⟨line, hget, hcont, hreg⟩⟩
    cases c with
    | text lines => exact hscan (by simpa [process_file, hb, FileContent.linesOf] using hmem)
    | errorAfter lines =>
        refine hscan ?_
        rcases hsc : scanLines ctx ((ctx.relpath full ctx.sessionRoot).getD full)
            lines 1 ms with ⟨ms2, sig⟩
        have hfst : (process_file ctx full (FileContent.errorAfter lines) ms).1 = ms2 := by
          cases sig <;> simp [process_file, hb, hsc]
        rw [hfst] at hmem
        simpa [FileContent.linesOf, hsc] using hmem

theorem walkFilesLoop_mem (ctx : ScanCtx) :
    ∀ (ds : List FSTree) (root : String) (ms : List MatchRecord) (m : MatchRecord),
      m ∈ walkFilesLoop ctx root ds ms →
      m ∈ ms ∨ scannedFrom ctx (fileCands root ds) m := by
  intro ds
  induction ds with
  | nil => intro root ms m hmem; exact Or.inl (by simpa [walkFilesLoop] using hmem)
  | cons t rest ih =>
      intro root ms m hmem
      cases t with
      | dir n cs =>
          rcases ih root ms m (by simpa [walkFilesLoop] using hmem) with hin | hgood
          · exact Or.inl hin
          · exact Or.inr (by simpa [fileCands] using hgood)
      | file name c =>
          have hlift : scannedFrom ctx [(pjoin root name, FileContent.linesOf c)] m →
              scannedFrom ctx (fileCands root (FSTree.file name c :: rest)) m := by
            intro hg
            refine scannedFrom_mono ctx ?_ m hg
            intro x hx
            simp only [List.mem_singleton] at hx
            simp [fileCands, hx]
          have htail : scannedFrom ctx (fileCands root rest) m →
              scannedFrom ctx (fileCands root (FSTree.file name c :: rest)) m := by
            intro hg
            refine scannedFrom_mono ctx ?_ m hg
            intro x hx
            simp [fileCands, hx]
          by_cases hcap : MAX_MATCHES ≤ ms.length
          · exact Or.inl (by simpa [walkFilesLoop, hcap] using hmem)
          · rcases hpf : process_file ctx (pjoin root name) c ms with ⟨ms2, sig⟩
            have hstep : m ∈ ms2 →
                m ∈ ms ∨ scannedFrom ctx (fileCands root (FSTree.file name c :: rest)) m := by
              intro h2
              rcases process_file_mem ctx (pjoin root name) c ms m
                  (by simp [hpf]; exact h2) with hin | hgood
              · exact Or.inl hin
              · exact Or.inr (hlift hgood)
            cases sig with
            | stop => exact hstep (by simpa [walkFilesLoop, hcap, hpf] using hmem)
            | cont =>
                have hmem2 : m ∈ walkFilesLoop ctx root rest ms2 := by
                  simpa [walkFilesLoop, hcap, hpf] using hmem
                rcases ih root ms2 m hmem2 with hin | hgood
                · exact hstep hin
                · exact Or.inr (htail hgood)

theorem nonrecLoop_mem (ctx : ScanCtx) :
    ∀ (ds : List FSTree) (root : String) (ms : List MatchRecord) (m : MatchRecord),
      m ∈ nonrecLoop ctx root ds ms →
      m ∈ ms ∨ scannedFrom ctx (fileCands root ds) m := by
  intro ds
  induction ds with
  | nil => intro root ms m hmem; exact Or.inl (by simpa [nonrecLoop] using hmem)
  | cons t rest ih =>
      intro root ms m hmem
      cases t with
      | dir n cs =>
          rcases ih root ms m (by simpa [nonrecLoop] using hmem) with hin | hgood
          · exact Or.inl hin
          · exact Or.inr (by simpa [fileCands] using hgood)
      | file name c =>
          have hlift : scannedFrom ctx [(pjoin root name, FileContent.linesOf c)] m →
              scannedFrom ctx (fileCands root (FSTree.file name c :: rest)) m := by
            intro hg
            refine scannedFrom_mono ctx ?_ m hg
            intro x hx
            simp only [List.mem_singleton] at hx
            simp [fileCands, hx]
          have htail : scannedFrom ctx (fileCands root rest) m →
              scannedFrom ctx (fileCands root (FSTree.file name c :: rest)) m := by
            intro hg
            refine scannedFrom_mono ctx ?_ m hg
            intro x hx
            simp [fileCands, hx]
          rcases hpf : process_file ctx (pjoin root name) c ms with ⟨ms2, sig⟩
          have hstep : m ∈ ms2 →
              m ∈ ms ∨ scannedFrom ctx (fileCands root (FSTree.file name c :: rest)) m := by
            intro h2
            rcases process_file_mem ctx (pjoin root name) c ms m
                (by simp [hpf]; exact h2) with hin | hgood
            · exact Or.inl hin
            · exact Or.inr (hlift hgood)
          cases sig with
          | stop => exact hstep (by simpa [nonrecLoop, hpf] using hmem)
          | cont =>
              have hmem2 : m ∈ nonrecLoop ctx root rest ms2 := by
                simpa [nonrecLoop, hpf] using hmem
              rcases ih root ms2 m hmem2 with hin | hgood
              · exact hstep hin
              · exact Or.inr (htail hgood)

theorem walkList_mem (ctx : ScanCtx) :
    ∀ (root : String) (ds : List FSTree) (ms : List MatchRecord),
      ∀ (m : MatchRecord), m ∈ (walkList ctx root ds ms).1 →
      m ∈ ms ∨ scannedFrom ctx (treeFiles root ds) m := by
  intro root ds ms
  induction root, ds, ms using walkList.induct ctx with
  | case1 root ms => intro m hmem; exact Or.inl (by simpa [walkList] using hmem)
  | case2 root name c rest ms ih =>
      intro m hmem
      rcases ih m (by simpa [walkList] using hmem) with hin | hgood
      · exact Or.inl hin
      · refine Or.inr (scannedFrom_mono ctx ?_ m hgood)
        intro x hx
        simp only [treeFiles, List.mem_cons]
        exact Or.inr hx
  | case3 root n cs rest ms hn ih =>
      intro m hmem
      rcases ih m (by simpa [walkList, hn] using hmem) with hin | hgood
      · exact Or.inl hin
      · refine Or.inr (scannedFrom_mono ctx ?_ m hgood)
        intro x hx
        simp only [treeFiles, List.mem_append]
        exact Or.inr hx
  | case4 root n cs rest ms hn hcap =>
      intro m hmem
      exact Or.inl (by simpa [walkList, hn, hcap] using hmem)
  | case5 root n cs rest ms hn hcap r hr ih =>
      intro m hmem
      have hmem2 : m ∈ (walkList ctx (pjoin root n) cs
          (walkFilesLoop ctx (pjoin root n) cs ms)).1 := by
        simp only [walkList, if_neg hn, if_neg hcap] at hmem
        rw [if_pos hr] at hmem
        exact hmem
      have hleft : scannedFrom ctx (treeFiles (pjoin root n) cs) m →
          scannedFrom ctx (treeFiles root (FSTree.dir n cs :: rest)) m := by
        intro hg
        refine scannedFrom_mono ctx ?_ m hg
        intro x hx
        simp only [treeFiles, List.mem_append]
        exact Or.inl hx
      rcases ih m hmem2 with hin | hgood
      · rcases walkFilesLoop_mem ctx cs (pjoin root n) ms m hin with hin2 | hgood2
        · exact Or.inl hin2
        · exact Or.inr (hleft (scannedFrom_mono ctx
            (fun x hx => mem_treeFiles_of_fileCands x cs (pjoin root n) hx) m hgood2))
      · exact Or.inr (hleft hgood)
  | case6 root n cs rest ms hn hcap r hr ih1 ih2 =>
      intro m hmem
      have hmem2 : m ∈ (walkList ctx root rest
          (walkList ctx (pjoin root n) cs (walkFilesLoop ctx (pjoin root n) cs ms)).1).1 := by
        simp only [walkList, if_neg hn, if_neg hcap] at hmem
        rw [if_neg hr] at hmem
        exact hmem
      have hleft : scannedFrom ctx (treeFiles (pjoin root n) cs) m →
          scannedFrom ctx (treeFiles root (FSTree.dir n cs :: rest)) m := by
        intro hg
        refine scannedFrom_mono ctx ?_ m hg
        intro x hx
        simp only [treeFiles, List.mem_append]
        exact Or.inl hx
      have hright : scannedFrom ctx (treeFiles root rest) m →
          scannedFrom ctx (treeFiles root (FSTree.dir n cs :: rest)) m := by
        intro hg
        refine scannedFrom_mono ctx ?_ m hg
        intro x hx
        simp only [treeFiles, List.mem_append]
        exact Or.inr hx
      rcases ih2 m hmem2 with hin | hgood
      · rcases ih1 m hin with hin2 | hgood2
        · rcases walkFilesLoop_mem ctx cs (pjoin root n) ms m hin2 with hin3 | hgood3
          · exact Or.inl hin3
          · exact Or.inr (hleft (scannedFrom_mono ctx
              (fun x hx => mem_treeFiles_of_fileCands x cs (pjoin root n) hx) m hgood3))
        · exact Or.inr (hleft hgood2)
      · exact Or.inr (hright hgood)

theorem walkVisit_mem (ctx : ScanCtx) (root : String) (ds : List FSTree)
    (ms : List MatchRecord) (m : MatchRecord)
    (hmem : m ∈ (walkVisit ctx root ds ms).1) :
    m ∈ ms ∨ scannedFrom ctx (treeFiles root ds) m := by
  by_cases hcap : MAX_MATCHES ≤ ms.length
  · exact Or.inl (by simpa [walkVisit, hcap] using hmem)
  · have hmem2 : m ∈ (walkList ctx root ds (walkFilesLoop ctx root ds ms)).1 := by
      simpa [walkVisit, hcap] using hmem
    rcases walkList_mem ctx root ds (walkFilesLoop ctx root ds ms) m hmem2 with hin | hgood
    · rcases walkFilesLoop_mem ctx ds root ms m hin with hin2 | hgood2
      · exact Or.inl hin2
      · exact Or.inr (scannedFrom_mono ctx
          (fun x hx => mem_treeFiles_of_fileCands x ds root hx) m hgood2)
    · exact Or.inr hgood

/-- Claim C9 as amended: every emitted match record comes from an actual
candidate file of the resolved target: its `file` field is the
`os.path.relpath` of that file's full path against the *session root*
whenever computable (absolute path as the degenerate fallback), its line
number is the 1-based index of an actual line of that file, and its content
is that matching line with surrounding whitespace stripped. -/
theorem claim_C9_amended (env : Env) (p pat : String) (rec : Bool)
    (regex : String → Bool) (sp : String)
    (ms : List MatchRecord) (m : MatchRecord)
    (hc : env.reCompile pat = Except.ok regex)
    (hr : env.resolve = Except.ok sp)
    (h : (grep_search env p pat rec).matchList = some ms) (hm : m ∈ ms) :
    scannedFrom ⟨regex, env.relpath, env.sessionRoot⟩ (targetFiles sp env.target) m := by
  unfold grep_search at h
  rw [hc, hr] at h
  cases ht : env.target with
  | file c =>
      rw [ht] at h
      simp only [okDict, Option.some.injEq] at h
      subst h
      rcases process_file_mem ⟨regex, env.relpath, env.sessionRoot⟩ sp c [] m hm with
        hin | hgood
      · exact absurd hin (List.not_mem_nil m)
      · simpa [targetFiles] using hgood
  | dir children =>
      rw [ht] at h
      cases rec with
      | true =>
          simp only [okDict, if_pos, Option.some.injEq] at h
          subst h
          rcases walkVisit_mem ⟨regex, env.relpath, env.sessionRoot⟩ sp children [] m hm with
            hin | hgood
          · exact absurd hin (List.not_mem_nil m)
          · simpa [targetFiles] using hgood
      | false =>
          simp only [okDict, Bool.false_eq_true, if_neg, not_false_eq_true,
            Option.some.injEq] at h
          subst h
          rcases nonrecLoop_mem ⟨regex, env.relpath, env.sessionRoot⟩ children sp [] m hm with
            hin | hgood
          · exact absurd hin (List.not_mem_nil m)
          · refine scannedFrom_mono _ ?_ m hgood
            intro x hx
            simpa [targetFiles] using mem_treeFiles_of_fileCands x children sp hx
  | missing =>
      rw [ht] at h
      cases rec with
      | true =>
          simp only [okDict, if_pos, Option.some.injEq] at h
          subst h
          exact absurd hm (List.not_mem_nil m)
      | false => simp [errDict] at h

theorem claim_C9_amended_witness :
    (grep_search envSingle "notes.txt" "hit" false).matchList =
      some [MatchRecord.mk "notes.txt" 1 "hit"] ∧
    scannedFrom ⟨fun line => line = "hit", envSingle.relpath, envSingle.sessionRoot⟩
      (targetFiles "/ws/w/a/s/notes.txt" envSingle.target)
      (MatchRecord.mk "notes.txt" 1 "hit") :=
  ⟨by decide,
   claim_C9_amended envSingle "notes.txt" "hit" false (fun line => line = "hit")
     "/ws/w/a/s/notes.txt" [MatchRecord.mk "notes.txt" 1 "hit"]
     (MatchRecord.mk "notes.txt" 1 "hit") rfl rfl (by decide) (by simp)⟩
